import Mathlib

/-!
Shallow embedding of the map-cache pipeline of `CacheAPI`
(`cacheMaps`, `cacheMap`, `parseMapData`) from the repository source.

Numeric engine fields are modelled as `Int`; runtime-optional values
(JS `undefined`) are modelled as `Option`.  The external parser
(`spring-map-parser`), the image buffers and the fallibility of the
filesystem/database writes are modelled as an oracle environment
`CacheEnv`; paths are abstracted to the file names they are built from
(the directory prefixes are constants of a run).
-/

/-- JS `String.prototype.endsWith`, as a suffix test on the character
sequences (kernel-computable, unlike `String.endsWith`). -/
def strEndsWith (s suffix : String) : Bool :=
  List.isSuffixOf suffix.data s.data

/-- JS `String.prototype.trim`: strip leading and trailing whitespace
(kernel-computable, unlike `String.trim`). -/
def strTrim (s : String) : String :=
  String.mk (((s.data.dropWhile Char.isWhitespace).reverse.dropWhile Char.isWhitespace).reverse)

/-- A start position (spec §3: ordered `{x, y}` points). -/
structure StartPos where
  x : Int
  y : Int
deriving DecidableEq, Inhabited

/-- One entry of `mapInfo.teams`; `cacheMap` reads only its `startPos`. -/
structure MapInfoTeam where
  startPos : StartPos
deriving DecidableEq, Inhabited

/-- The `mapInfo.atmosphere` sub-object (wind range). -/
structure Atmosphere where
  minWind : Option Int
  maxWind : Option Int
deriving DecidableEq, Inhabited

/-- The modern metadata source `mapData.mapInfo`, with every field optional,
as accessed by `parseMapData` (note the source's lowercase `maphardness`). -/
structure MapInfo where
  description : Option String
  maphardness : Option Int
  gravity : Option Int
  tidalStrength : Option Int
  maxMetal : Option Int
  extractorRadius : Option Int
  atmosphere : Option Atmosphere
  teams : Option (List MapInfoTeam)
deriving DecidableEq, Inhabited

/-- The legacy metadata source `mapData.smd`, with every field optional. -/
structure Smd where
  description : Option String
  mapHardness : Option Int
  gravity : Option Int
  tidalStrength : Option Int
  maxMetal : Option Int
  extractorRadius : Option Int
  minWind : Option Int
  maxWind : Option Int
  startPositions : Option (List StartPos)
deriving DecidableEq, Inhabited

/-- The `smf` block carrying the raw map dimensions in source units. -/
structure Smf where
  mapWidthUnits : Int
  mapHeightUnits : Int
deriving DecidableEq, Inhabited

/-- The parsed archive (`SpringMap`) as consumed by `parseMapData`:
the external parser's output at the boundary.  `smf` is optional because
the source dereferences it with a non-null assertion (`mapData.smf!`),
which throws at runtime when it is absent. -/
structure SpringMap where
  fileName : String
  fileNameWithExt : String
  scriptName : String
  mapInfo : Option MapInfo
  smd : Option Smd
  smf : Option Smf
  minHeight : Int
  maxHeight : Int
deriving DecidableEq, Inhabited

/-- The canonical cached record (`MapData` of `@/model/map`), shaped by the
object literal built in `parseMapData`.  Fields whose source expression can
evaluate to `undefined` at runtime (the `??` chains under a type-level `!`)
are `Option`. -/
structure MapData where
  fileName : String
  fileNameWithExt : String
  scriptName : String
  description : Option String
  mapHardness : Option Int
  gravity : Option Int
  tidalStrength : Option Int
  maxMetal : Option Int
  extractorRadius : Option Int
  minWind : Option Int
  maxWind : Option Int
  startPositions : Option (List StartPos)
  width : Int
  height : Int
  minDepth : Int
  maxDepth : Int
  mapInfo : Option MapInfo
deriving DecidableEq, Inhabited

/-- JS `a ?? b` on optional values: the modern value is used whenever it is
present (`null`/`undefined` alone fall through). -/
def jsNullish {α : Type} (a b : Option α) : Option α :=
  match a with
  | some v => some v
  | none => b

/-- JS `a || b` on optional strings, as used for `description`: a present but
empty (falsy) string also falls through to `b`. -/
def jsOrString (a b : Option String) : Option String :=
  match a with
  | some s => if s = "" then b else some s
  | none => b

/-- `CacheAPI.parseMapData`.  Returns `none` when `smf` is absent, modelling
the TypeError thrown by `mapData.smf!.mapWidthUnits` (caught by the caller). -/
def parseMapData (mapData : SpringMap) : Option MapData :=
  match mapData.smf with
  | none => none
  | some smf => some {
      fileName := mapData.fileName
      fileNameWithExt := mapData.fileNameWithExt
      scriptName := strTrim mapData.scriptName
      description := jsOrString (mapData.mapInfo.bind MapInfo.description)
        (mapData.smd.bind Smd.description)
      mapHardness := jsNullish (mapData.mapInfo.bind MapInfo.maphardness)
        (mapData.smd.bind Smd.mapHardness)
      gravity := jsNullish (mapData.mapInfo.bind MapInfo.gravity)
        (mapData.smd.bind Smd.gravity)
      tidalStrength := jsNullish (mapData.mapInfo.bind MapInfo.tidalStrength)
        (mapData.smd.bind Smd.tidalStrength)
      maxMetal := jsNullish (mapData.mapInfo.bind MapInfo.maxMetal)
        (mapData.smd.bind Smd.maxMetal)
      extractorRadius := jsNullish (mapData.mapInfo.bind MapInfo.extractorRadius)
        (mapData.smd.bind Smd.extractorRadius)
      minWind := jsNullish ((mapData.mapInfo.bind MapInfo.atmosphere).bind Atmosphere.minWind)
        (mapData.smd.bind Smd.minWind)
      maxWind := jsNullish ((mapData.mapInfo.bind MapInfo.atmosphere).bind Atmosphere.maxWind)
        (mapData.smd.bind Smd.maxWind)
      startPositions := jsNullish
        ((mapData.mapInfo.bind MapInfo.teams).map (fun teams => teams.map MapInfoTeam.startPos))
        (mapData.smd.bind Smd.startPositions)
      width := smf.mapWidthUnits * 2
      height := smf.mapHeightUnits * 2
      minDepth := mapData.minHeight
      maxDepth := mapData.maxHeight
      mapInfo := mapData.mapInfo }

/-- The events observable on the IPC bus.  `batchStarted` is the spec's
batch-level start event (§4.4); the source emits only the other two kinds
(`map-cache-progress` before each item and `map-cached` after a success),
so the constructor exists to let statements about the spec's taxonomy be
made against the code's trace. -/
inductive CacheEvent where
  | batchStarted (totalItems : Nat)
  | mapCacheProgress (totalMapsToCache : Nat) (currentMapsCached : Nat)
      (currentMapCaching : String)
  | mapCached (data : MapData)
deriving DecidableEq, Inhabited

/-- The mutable state of a `CacheAPI` instance together with the artifacts
on disk: the `maps` database table, the in-memory index `cachedMaps`
(an insertion-ordered keyed collection, as a JS object is), and the set of
image files written so far. -/
structure CacheState where
  db : List (String × MapData)
  cachedMaps : List (String × MapData)
  imagesWritten : List String
deriving DecidableEq, Inhabited

/-- The empty state: fresh database and index, no images on disk. -/
def emptyState : CacheState := { db := [], cachedMaps := [], imagesWritten := [] }

/-- Keyed write into a JS-object / `REPLACE INTO` keyed collection: update the
value in place when the key exists, append otherwise. -/
def replaceEntry (k : String) (v : MapData) : List (String × MapData) → List (String × MapData)
  | [] => [(k, v)]
  | (k₁, v₁) :: rest => if k₁ = k then (k, v) :: rest else (k₁, v₁) :: replaceEntry k v rest

/-- First-match lookup in a keyed collection. -/
def lookupEntry (k : String) : List (String × MapData) → Option MapData
  | [] => none
  | (k₁, v₁) :: rest => if k₁ = k then some v₁ else lookupEntry k rest

/-- The oracle environment of one batch: the directory listing returned by
`readdir` (in listing order), the external parser (`none` models a parse
error thrown for that file), and the success of each image write (by
destination path) and of each metadata `REPLACE` (by key). -/
structure CacheEnv where
  mapFileNames : List String
  parseMap : String → Option SpringMap
  imageWriteOk : String → Bool
  dbWriteOk : String → Bool

/-- The boundary assumption that the external parser names its output after
the file it parsed: `fileNameWithExt` of the parsed archive is the directory
file name handed to `parseMap`. -/
def CacheEnv.WellNamed (env : CacheEnv) : Prop :=
  ∀ f m, env.parseMap f = some m → m.fileNameWithExt = f

/-- The destination name of one derived image:
`{fileName}-{name}.png` (the images directory is a constant of the run). -/
def destPath (fileName name : String) : String := fileName ++ "-" ++ name ++ ".png"

/-- The four artifact kinds, in the order the source writes them. -/
def imageKinds : List String := ["texture", "metal", "height", "type"]

/-- The four sequential `writeAsync` calls: stop at the first failure; images
written before the failure stay on disk (no rollback). Returns the state and
whether all requested writes succeeded. -/
def writeImages (env : CacheEnv) (fileName : String) :
    CacheState → List String → CacheState × Bool
  | st, [] => (st, true)
  | st, kind :: rest =>
    let dest := destPath fileName kind
    if env.imageWriteOk dest then
      writeImages env fileName { st with imagesWritten := st.imagesWritten ++ [dest] } rest
    else (st, false)

/-- The record extracted for a file: parser output normalized by
`parseMapData` (absent on a parse or normalization failure). -/
def extractedRecord (env : CacheEnv) (mapFileName : String) : Option MapData :=
  (env.parseMap mapFileName).bind parseMapData

/-- Whether processing `mapFileName` succeeds end to end: parse and
normalization succeed, all four image writes succeed, and the metadata
`REPLACE` succeeds.  (Success does not depend on the current state.) -/
def cacheMapOk (env : CacheEnv) (mapFileName : String) : Bool :=
  match extractedRecord env mapFileName with
  | none => false
  | some mapData =>
    (imageKinds.all fun kind => env.imageWriteOk (destPath mapData.fileName kind)) &&
      env.dbWriteOk mapData.fileNameWithExt

/-- `CacheAPI.cacheMap`: parse, normalize, write the four images, `REPLACE`
the metadata row, update the in-memory index, and emit `map-cached` — with
every failure caught: a failed item leaves the database and index rows
untouched (partially written images remain) and emits nothing. -/
def cacheMap (env : CacheEnv) (st : CacheState) (mapFileName : String) :
    CacheState × List CacheEvent :=
  match extractedRecord env mapFileName with
  | none => (st, [])
  | some mapData =>
    let written := writeImages env mapData.fileName st imageKinds
    if written.2 then
      if env.dbWriteOk mapData.fileNameWithExt then
        let st₁ := { written.1 with
          db := replaceEntry mapData.fileNameWithExt mapData written.1.db }
        let st₂ := { st₁ with
          cachedMaps := replaceEntry mapData.fileNameWithExt mapData st₁.cachedMaps }
        (st₂, [CacheEvent.mapCached mapData])
      else (written.1, [])
    else (written.1, [])

/-- Whether a file has one of the two recognized archive extensions. -/
def isRecognizedArchive (fileName : String) : Bool :=
  strEndsWith fileName ".sd7" || strEndsWith fileName ".sdz"

/-- The work set of one batch (`mapsToCache` of `cacheMaps`): the directory
listing filtered to recognized archives that are forced (`recacheAll`) or
whose name is absent from the index keys, computed once before the loop. -/
def mapsToCache (env : CacheEnv) (st : CacheState) (recacheAll : Bool) : List String :=
  let cachedMapFileNames := st.cachedMaps.map Prod.fst
  env.mapFileNames.filter fun fileName =>
    (recacheAll || !(cachedMapFileNames.contains fileName)) && isRecognizedArchive fileName

/-- The per-item loop of `cacheMaps`: before each item emit
`map-cache-progress` with the (constant) work-set size and the running
counter `mapsCached`, process the item, and increment the counter —
unconditionally, whether or not the item succeeded. -/
def cacheMapsLoop (env : CacheEnv) (total : Nat) :
    CacheState → Nat → List String → CacheState × List CacheEvent
  | st, _, [] => (st, [])
  | st, mapsCached, mapFileName :: rest =>
    let step := cacheMap env st mapFileName
    let res := cacheMapsLoop env total step.1 (mapsCached + 1) rest
    (res.1, CacheEvent.mapCacheProgress total mapsCached mapFileName :: (step.2 ++ res.2))

/-- `CacheAPI.cacheMaps` (`runBatch`): list the directory, compute the work
set, and run the per-item loop.  Returns the final state and the emitted
event trace, in order. -/
def cacheMaps (env : CacheEnv) (st : CacheState) (recacheAll : Bool) :
    CacheState × List CacheEvent :=
  let work := mapsToCache env st recacheAll
  cacheMapsLoop env work.length st 0 work

/-- The payload of a `map-cache-progress` event, when the event is one. -/
def progressInfo : CacheEvent → Option (Nat × Nat × String)
  | CacheEvent.mapCacheProgress t i f => some (t, i, f)
  | _ => none

/-- Whether an event is a `map-cached` completion event. -/
def isMapCached : CacheEvent → Bool
  | CacheEvent.mapCached _ => true
  | _ => false

/-- The events one `cacheMap` call emits; they depend only on the oracle
environment, not on the current state. -/
def cacheMapEvents (env : CacheEnv) (mapFileName : String) : List CacheEvent :=
  match extractedRecord env mapFileName with
  | none => []
  | some r => if cacheMapOk env mapFileName then [CacheEvent.mapCached r] else []

/-- `parseMapData` copies `fileNameWithExt` through unchanged. -/
theorem parseMapData_fileNameWithExt {m : SpringMap} {r : MapData}
    (h : parseMapData m = some r) : r.fileNameWithExt = m.fileNameWithExt := by
  unfold parseMapData at h
  cases hs : m.smf with
  | none => rw [hs] at h; exact absurd h (by simp)
  | some smf => rw [hs] at h; cases h; rfl

/-- Under the parser-naming boundary assumption, the extracted record is
keyed by the directory file name it came from. -/
theorem extractedRecord_key {env : CacheEnv} (hW : env.WellNamed) {f : String} {r : MapData}
    (h : extractedRecord env f = some r) : r.fileNameWithExt = f := by
  unfold extractedRecord at h
  cases hp : env.parseMap f with
  | none => rw [hp] at h; exact absurd h (by simp)
  | some m =>
    rw [hp, Option.some_bind] at h
    rw [parseMapData_fileNameWithExt h]
    exact hW f m hp

theorem lookup_replaceEntry_self (k : String) (v : MapData) (l : List (String × MapData)) :
    lookupEntry k (replaceEntry k v l) = some v := by
  induction l with
  | nil => simp [replaceEntry, lookupEntry]
  | cons hd tl ih =>
    obtain ⟨k₁, v₁⟩ := hd
    by_cases hk : k₁ = k
    · simp [replaceEntry, hk, lookupEntry]
    · simp [replaceEntry, hk, lookupEntry, ih]

theorem lookup_replaceEntry_ne {a k : String} (hne : a ≠ k) (v : MapData)
    (l : List (String × MapData)) :
    lookupEntry a (replaceEntry k v l) = lookupEntry a l := by
  induction l with
  | nil => simp [replaceEntry, lookupEntry, Ne.symm hne]
  | cons hd tl ih =>
    obtain ⟨k₁, v₁⟩ := hd
    by_cases hk : k₁ = k
    · subst hk
      simp [replaceEntry, lookupEntry, Ne.symm hne]
    · simp [replaceEntry, hk, lookupEntry, ih]

theorem keys_replaceEntry_of_mem {k : String} {l : List (String × MapData)}
    (h : k ∈ l.map Prod.fst) (v : MapData) :
    (replaceEntry k v l).map Prod.fst = l.map Prod.fst := by
  induction l with
  | nil => simp at h
  | cons hd tl ih =>
    obtain ⟨k₁, v₁⟩ := hd
    by_cases hk : k₁ = k
    · simp [replaceEntry, hk]
    · simp only [List.map_cons, List.mem_cons] at h
      rcases h with h | h
      · exact absurd h.symm hk
      · simp [replaceEntry, hk, ih h]

theorem mem_keys_replaceEntry {a k : String} {l : List (String × MapData)} (v : MapData) :
    a ∈ (replaceEntry k v l).map Prod.fst ↔ a = k ∨ a ∈ l.map Prod.fst := by
  induction l with
  | nil => simp [replaceEntry]
  | cons hd tl ih =>
    obtain ⟨k₁, v₁⟩ := hd
    by_cases hk : k₁ = k
    · subst hk
      simp [replaceEntry]
    · simp only [replaceEntry, if_neg hk, List.map_cons, List.mem_cons, ih]
      tauto

/-- Image writes never touch the database row set. -/
theorem writeImages_db (env : CacheEnv) (fileName : String) (st : CacheState)
    (kinds : List String) : (writeImages env fileName st kinds).1.db = st.db := by
  induction kinds generalizing st with
  | nil => rfl
  | cons kind rest ih =>
    by_cases hk : env.imageWriteOk (destPath fileName kind)
    · simp [writeImages, hk, ih]
    · simp [writeImages, hk]

/-- Image writes never touch the in-memory index. -/
theorem writeImages_cachedMaps (env : CacheEnv) (fileName : String) (st : CacheState)
    (kinds : List String) : (writeImages env fileName st kinds).1.cachedMaps = st.cachedMaps := by
  induction kinds generalizing st with
  | nil => rfl
  | cons kind rest ih =>
    by_cases hk : env.imageWriteOk (destPath fileName kind)
    · simp [writeImages, hk, ih]
    · simp [writeImages, hk]

/-- The success flag of the sequential image writes equals the conjunction of
the individual write outcomes. -/
theorem writeImages_snd (env : CacheEnv) (fileName : String) (st : CacheState)
    (kinds : List String) :
    (writeImages env fileName st kinds).2 =
      (kinds.all fun kind => env.imageWriteOk (destPath fileName kind)) := by
  induction kinds generalizing st with
  | nil => rfl
  | cons kind rest ih =>
    by_cases hk : env.imageWriteOk (destPath fileName kind)
    · simp [writeImages, hk, ih]
    · simp [writeImages, hk]

/-- A failed item leaves the database and the in-memory index untouched and
emits no event. -/
theorem cacheMap_not_ok {env : CacheEnv} {mapFileName : String}
    (h : cacheMapOk env mapFileName = false) (st : CacheState) :
    (cacheMap env st mapFileName).1.db = st.db ∧
      (cacheMap env st mapFileName).1.cachedMaps = st.cachedMaps ∧
      (cacheMap env st mapFileName).2 = [] := by
  unfold cacheMap
  unfold cacheMapOk at h
  cases he : extractedRecord env mapFileName with
  | none => simp
  | some mapData =>
    rw [he] at h
    have h' : ((imageKinds.all fun kind => env.imageWriteOk (destPath mapData.fileName kind)) &&
        env.dbWriteOk mapData.fileNameWithExt) = false := h
    by_cases hw : (imageKinds.all fun kind => env.imageWriteOk (destPath mapData.fileName kind))
    · have hdb : env.dbWriteOk mapData.fileNameWithExt = false := by
        cases h₁ : env.dbWriteOk mapData.fileNameWithExt
        · rfl
        · rw [hw, h₁] at h'; simp at h'
      simp [writeImages_snd, hw, hdb, writeImages_db, writeImages_cachedMaps]
    · have hw₂ : (imageKinds.all fun kind =>
          env.imageWriteOk (destPath mapData.fileName kind)) = false := by
        cases h₁ : (imageKinds.all fun kind =>
          env.imageWriteOk (destPath mapData.fileName kind))
        · rfl
        · exact absurd h₁ hw
      simp [writeImages_snd, hw₂, writeImages_db, writeImages_cachedMaps]

/-- A successful item replaces the row and the index entry at the extracted
record's key and emits exactly its `map-cached` event. -/
theorem cacheMap_ok {env : CacheEnv} {mapFileName : String}
    (h : cacheMapOk env mapFileName = true) (st : CacheState) :
    ∃ r, extractedRecord env mapFileName = some r ∧
      (cacheMap env st mapFileName).1.db = replaceEntry r.fileNameWithExt r st.db ∧
      (cacheMap env st mapFileName).1.cachedMaps =
        replaceEntry r.fileNameWithExt r st.cachedMaps ∧
      (cacheMap env st mapFileName).2 = [CacheEvent.mapCached r] := by
  unfold cacheMapOk at h
  cases he : extractedRecord env mapFileName with
  | none => rw [he] at h; simp at h
  | some mapData =>
    rw [he] at h
    have hw := (Bool.and_eq_true _ _).mp h
    refine ⟨mapData, rfl, ?_⟩
    unfold cacheMap
    rw [he]
    simp [writeImages_snd, hw.1, hw.2, writeImages_db, writeImages_cachedMaps]

/-- The events of one item do not depend on the state it runs from. -/
theorem cacheMap_events (env : CacheEnv) (st : CacheState) (mapFileName : String) :
    (cacheMap env st mapFileName).2 = cacheMapEvents env mapFileName := by
  unfold cacheMapEvents
  cases he : extractedRecord env mapFileName with
  | none => unfold cacheMap; rw [he]
  | some mapData =>
    by_cases h : cacheMapOk env mapFileName
    · obtain ⟨r, hr, -, -, hev⟩ := cacheMap_ok h st
      rw [hr] at he
      cases he
      simp [hev, h]
    · have h₂ : cacheMapOk env mapFileName = false := by
        cases h₁ : cacheMapOk env mapFileName
        · rfl
        · exact absurd h₁ h
      obtain ⟨-, -, hev⟩ := cacheMap_not_ok h₂ st
      simp [hev, h₂]

/-- On success the item list of events is its `map-cached` event. -/
theorem cacheMapEvents_of_ok {env : CacheEnv} {mapFileName : String}
    (h : cacheMapOk env mapFileName = true) :
    ∃ r, extractedRecord env mapFileName = some r ∧
      cacheMapEvents env mapFileName = [CacheEvent.mapCached r] := by
  unfold cacheMapEvents
  cases he : extractedRecord env mapFileName with
  | none => unfold cacheMapOk at h; rw [he] at h; exact absurd h (by simp)
  | some r => exact ⟨r, rfl, by simp [h]⟩

/-- A failed item emits nothing. -/
theorem cacheMapEvents_of_not_ok {env : CacheEnv} {mapFileName : String}
    (h : cacheMapOk env mapFileName = false) : cacheMapEvents env mapFileName = [] := by
  unfold cacheMapEvents
  cases he : extractedRecord env mapFileName with
  | none => rfl
  | some r => simp [h]

/-- When every work item fails, the loop leaves the database and the index
exactly as they were. -/
theorem cacheMapsLoop_all_fail (env : CacheEnv) (t : Nat) (l : List String)
    (hfail : ∀ f ∈ l, cacheMapOk env f = false) (st : CacheState) (n : Nat) :
    (cacheMapsLoop env t st n l).1.db = st.db ∧
      (cacheMapsLoop env t st n l).1.cachedMaps = st.cachedMaps := by
  induction l generalizing st n with
  | nil => exact ⟨rfl, rfl⟩
  | cons f rest ih =>
    have hf := hfail f (List.mem_cons_self f rest)
    obtain ⟨hdb, hcm, -⟩ := cacheMap_not_ok hf st
    have ihr := ih (fun g hg => hfail g (List.mem_cons_of_mem f hg)) (cacheMap env st f).1 (n + 1)
    simp only [cacheMapsLoop]
    exact ⟨ihr.1.trans hdb, ihr.2.trans hcm⟩

/-- Which keys the index holds after the loop: exactly the keys it held
before, plus the work items that succeed (under the parser-naming boundary
assumption). -/
theorem cacheMapsLoop_mem_keys {env : CacheEnv} (hW : env.WellNamed) (t : Nat)
    (l : List String) (st : CacheState) (n : Nat) (k : String) :
    k ∈ (cacheMapsLoop env t st n l).1.cachedMaps.map Prod.fst ↔
      (k ∈ st.cachedMaps.map Prod.fst ∨ (k ∈ l ∧ cacheMapOk env k = true)) := by
  induction l generalizing st n with
  | nil => simp [cacheMapsLoop]
  | cons f rest ih =>
    simp only [cacheMapsLoop]
    rw [ih]
    by_cases hok : cacheMapOk env f = true
    · obtain ⟨r, hr, -, hcm, -⟩ := cacheMap_ok hok st
      have hkey : r.fileNameWithExt = f := extractedRecord_key hW hr
      rw [hcm, hkey]
      constructor
      · rintro (h | h)
        · rcases (mem_keys_replaceEntry r).mp h with h₁ | h₁
          · exact Or.inr ⟨h₁ ▸ List.mem_cons_self f rest, h₁ ▸ hok⟩
          · exact Or.inl h₁
        · exact Or.inr ⟨List.mem_cons_of_mem f h.1, h.2⟩
      · rintro (h | ⟨h₁, h₂⟩)
        · exact Or.inl ((mem_keys_replaceEntry r).mpr (Or.inr h))
        · rcases List.mem_cons.mp h₁ with h₃ | h₃
          · exact Or.inl ((mem_keys_replaceEntry r).mpr (Or.inl h₃))
          · exact Or.inr ⟨h₃, h₂⟩
    · have hok₂ : cacheMapOk env f = false := by
        cases h₁ : cacheMapOk env f
        · rfl
        · exact absurd h₁ hok
      obtain ⟨-, hcm, -⟩ := cacheMap_not_ok hok₂ st
      rw [hcm]
      constructor
      · rintro (h | h)
        · exact Or.inl h
        · exact Or.inr ⟨List.mem_cons_of_mem f h.1, h.2⟩
      · rintro (h | ⟨h₁, h₂⟩)
        · exact Or.inl h
        · rcases List.mem_cons.mp h₁ with h₃ | h₃
          · subst h₃; exact absurd h₂ hok
          · exact Or.inr ⟨h₃, h₂⟩

/-- The loop never changes the index entry of a key that is not in its work
list (under the parser-naming boundary assumption). -/
theorem cacheMapsLoop_lookup_not_mem {env : CacheEnv} (hW : env.WellNamed) (t : Nat)
    (l : List String) (st : CacheState) (n : Nat) (k : String) (hk : k ∉ l) :
    lookupEntry k (cacheMapsLoop env t st n l).1.cachedMaps =
      lookupEntry k st.cachedMaps := by
  induction l generalizing st n with
  | nil => rfl
  | cons f rest ih =>
    have hne : k ≠ f := fun h => hk (h ▸ List.mem_cons_self f rest)
    have hrest : k ∉ rest := fun h => hk (List.mem_cons_of_mem f h)
    simp only [cacheMapsLoop]
    rw [ih (cacheMap env st f).1 (n + 1) hrest]
    by_cases hok : cacheMapOk env f = true
    · obtain ⟨r, hr, -, hcm, -⟩ := cacheMap_ok hok st
      rw [hcm, extractedRecord_key hW hr]
      exact lookup_replaceEntry_ne hne r st.cachedMaps
    · have hok₂ : cacheMapOk env f = false := by
        cases h₁ : cacheMapOk env f
        · rfl
        · exact absurd h₁ hok
      rw [(cacheMap_not_ok hok₂ st).2.1]

/-- Every event one item emits is a `map-cached` event for its extracted
record. -/
theorem mem_cacheMapEvents {env : CacheEnv} {mapFileName : String} {ev : CacheEvent}
    (h : ev ∈ cacheMapEvents env mapFileName) :
    ∃ r, ev = CacheEvent.mapCached r ∧ extractedRecord env mapFileName = some r := by
  by_cases hok : cacheMapOk env mapFileName = true
  · obtain ⟨r, hr, hev⟩ := cacheMapEvents_of_ok hok
    rw [hev] at h
    rcases List.mem_singleton.mp h with h₁
    exact ⟨r, h₁, hr⟩
  · have hok₂ : cacheMapOk env mapFileName = false := by
      cases h₁ : cacheMapOk env mapFileName
      · rfl
      · exact absurd h₁ hok
    rw [cacheMapEvents_of_not_ok hok₂] at h
    exact absurd h (List.not_mem_nil ev)

/-- The loop never emits a batch-level start event. -/
theorem cacheMapsLoop_no_batchStarted (env : CacheEnv) (t : Nat) (l : List String)
    (st : CacheState) (n : Nat) (k : Nat) :
    CacheEvent.batchStarted k ∉ (cacheMapsLoop env t st n l).2 := by
  induction l generalizing st n with
  | nil => exact List.not_mem_nil _
  | cons f rest ih =>
    simp only [cacheMapsLoop]
    intro h
    rcases List.mem_cons.mp h with h₁ | h₁
    · exact absurd h₁ (by simp)
    · rcases List.mem_append.mp h₁ with h₂ | h₂
      · rw [cacheMap_events] at h₂
        obtain ⟨r, hr, -⟩ := mem_cacheMapEvents h₂
        exact absurd hr (by simp)
      · exact absurd h₂ (ih (cacheMap env st f).1 (n + 1))

/-- Every progress event of the loop carries the batch total it was started
with. -/
theorem cacheMapsLoop_progress_total (env : CacheEnv) (t : Nat) (l : List String)
    (st : CacheState) (n : Nat) {t₁ i : Nat} {g : String}
    (h : CacheEvent.mapCacheProgress t₁ i g ∈ (cacheMapsLoop env t st n l).2) : t₁ = t := by
  induction l generalizing st n with
  | nil => exact absurd h (List.not_mem_nil _)
  | cons f rest ih =>
    simp only [cacheMapsLoop] at h
    rcases List.mem_cons.mp h with h₁ | h₁
    · cases h₁; rfl
    · rcases List.mem_append.mp h₁ with h₂ | h₂
      · rw [cacheMap_events] at h₂
        obtain ⟨r, hr, -⟩ := mem_cacheMapEvents h₂
        exact absurd hr (by simp)
      · exact ih (cacheMap env st f).1 (n + 1) h₂

/-- The progress events of the loop, in order: one per work item, carrying
the constant total, the item's 0-based position as the running counter, and
the item's file name. -/
theorem cacheMapsLoop_progress_trace (env : CacheEnv) (t : Nat) (l : List String)
    (st : CacheState) (n : Nat) :
    (cacheMapsLoop env t st n l).2.filterMap progressInfo =
      (List.enumFrom n l).map (fun p => (t, p.1, p.2)) := by
  induction l generalizing st n with
  | nil => rfl
  | cons f rest ih =>
    simp only [cacheMapsLoop, List.filterMap_cons, List.filterMap_append]
    have hev : (cacheMap env st f).2.filterMap progressInfo = [] := by
      rw [cacheMap_events]
      rcases hnil : cacheMapEvents env f with _ | ⟨ev, evs⟩
      · rfl
      · have hm : ev ∈ cacheMapEvents env f := by rw [hnil]; exact List.mem_cons_self ev evs
        obtain ⟨r, hr, -⟩ := mem_cacheMapEvents hm
        have : evs = [] := by
          by_cases hok : cacheMapOk env f = true
          · obtain ⟨r₁, -, hev₁⟩ := cacheMapEvents_of_ok hok
            rw [hnil] at hev₁
            exact (List.cons.injEq _ _ _ _ |>.mp hev₁).2
          · have hok₂ : cacheMapOk env f = false := by
              cases h₁ : cacheMapOk env f
              · rfl
              · exact absurd h₁ hok
            rw [cacheMapEvents_of_not_ok hok₂] at hnil
            exact absurd hnil (by simp)
        subst this
        subst hr
        rfl
    rw [hev, List.nil_append, ih (cacheMap env st f).1 (n + 1)]
    simp [progressInfo, List.enumFrom]

/-- Every `map-cached` event in a loop trace is immediately preceded by the
progress event of the very item it belongs to, and the record it carries is
that item's extracted record. -/
theorem cacheMapsLoop_mapCached_preceded (env : CacheEnv) (t : Nat) (l : List String)
    (st : CacheState) (n : Nat) {l₁ l₂ : List CacheEvent} {r : MapData}
    (h : (cacheMapsLoop env t st n l).2 = l₁ ++ CacheEvent.mapCached r :: l₂) :
    ∃ l₀ t₁ i g, l₁ = l₀ ++ [CacheEvent.mapCacheProgress t₁ i g] ∧
      extractedRecord env g = some r := by
  induction l generalizing st n l₁ with
  | nil =>
    exact absurd h.symm (List.append_ne_nil_of_right_ne_nil l₁ (List.cons_ne_nil _ _))
  | cons f rest ih =>
    simp only [cacheMapsLoop] at h
    cases l₁ with
    | nil =>
      rw [List.nil_append] at h
      exact absurd (List.head_eq_of_cons_eq h.symm) (by simp)
    | cons e l₁' =>
      obtain ⟨he, htail⟩ := List.cons_eq_cons.mp h.symm
      rw [cacheMap_events] at htail
      by_cases hok : cacheMapOk env f = true
      · obtain ⟨r₀, hr₀, hev⟩ := cacheMapEvents_of_ok hok
        rw [hev] at htail
        cases l₁' with
        | nil =>
          have htail₂ : CacheEvent.mapCached r :: l₂ =
              CacheEvent.mapCached r₀ ::
                (cacheMapsLoop env t (cacheMap env st f).1 (n + 1) rest).2 := by
            simpa using htail
          obtain ⟨hc, -⟩ := List.cons_eq_cons.mp htail₂
          cases hc
          exact ⟨[], t, n, f, by simp [he], hr₀⟩
        | cons e₁ l₁'' =>
          obtain ⟨he₁, htail₂⟩ := List.cons_eq_cons.mp htail
          obtain ⟨l₀, t₁, i, g, hsplit, hg⟩ := ih (cacheMap env st f).1 (n + 1) htail₂.symm
          refine ⟨CacheEvent.mapCacheProgress t n f :: e₁ :: l₀, t₁, i, g, ?_, hg⟩
          rw [he, hsplit]
          rfl
      · have hok₂ : cacheMapOk env f = false := by
          cases h₁ : cacheMapOk env f
          · rfl
          · exact absurd h₁ hok
        rw [cacheMapEvents_of_not_ok hok₂] at htail
        have htail₂ : (cacheMapsLoop env t (cacheMap env st f).1 (n + 1) rest).2 =
            l₁' ++ CacheEvent.mapCached r :: l₂ := by
          simpa using htail.symm
        obtain ⟨l₀, t₁, i, g, hsplit, hg⟩ := ih (cacheMap env st f).1 (n + 1) htail₂
        refine ⟨CacheEvent.mapCacheProgress t n f :: l₀, t₁, i, g, ?_, hg⟩
        rw [he, hsplit]
        rfl

/-- Membership in the incremental work set: listed, recognized, and not yet
keyed in the index. -/
theorem mem_mapsToCache_false {env : CacheEnv} {st : CacheState} {f : String} :
    f ∈ mapsToCache env st false ↔
      f ∈ env.mapFileNames ∧ f ∉ st.cachedMaps.map Prod.fst ∧
        isRecognizedArchive f = true := by
  simp [mapsToCache, List.mem_filter, and_assoc]

/-- Membership in the index keys after a batch (parser-naming boundary
assumption): the old keys plus the successful work items. -/
theorem cacheMaps_mem_keys {env : CacheEnv} (hW : env.WellNamed) (st : CacheState)
    (b : Bool) (k : String) :
    k ∈ (cacheMaps env st b).1.cachedMaps.map Prod.fst ↔
      (k ∈ st.cachedMaps.map Prod.fst ∨
        (k ∈ mapsToCache env st b ∧ cacheMapOk env k = true)) :=
  cacheMapsLoop_mem_keys hW _ _ st 0 k

/-- The incremental work set of the run right after a batch is exactly the
previous work set filtered to the items that failed. -/
theorem mapsToCache_after_batch {env : CacheEnv} (hW : env.WellNamed) (st : CacheState) :
    mapsToCache env (cacheMaps env st false).1 false =
      (mapsToCache env st false).filter (fun f => !(cacheMapOk env f)) := by
  unfold mapsToCache
  rw [List.filter_filter]
  apply List.filter_congr
  intro f hf
  by_cases hrec : isRecognizedArchive f = true
  · by_cases hk0 : f ∈ st.cachedMaps.map Prod.fst
    · have hk1 : f ∈ (cacheMaps env st false).1.cachedMaps.map Prod.fst :=
        (cacheMaps_mem_keys hW st false f).mpr (Or.inl hk0)
      simp [hrec, hk0, hk1]
    · by_cases hok : cacheMapOk env f = true
      · have hwork : f ∈ mapsToCache env st false :=
          mem_mapsToCache_false.mpr ⟨hf, hk0, hrec⟩
        have hk1 : f ∈ (cacheMaps env st false).1.cachedMaps.map Prod.fst :=
          (cacheMaps_mem_keys hW st false f).mpr (Or.inr ⟨hwork, hok⟩)
        simp [hrec, hk0, hk1, hok]
      · have hok₂ : cacheMapOk env f = false := by
          cases h₁ : cacheMapOk env f
          · rfl
          · exact absurd h₁ hok
        have hk1 : f ∉ (cacheMaps env st false).1.cachedMaps.map Prod.fst := by
          intro h
          rcases (cacheMaps_mem_keys hW st false f).mp h with h₁ | h₁
          · exact hk0 h₁
          · rw [hok₂] at h₁; exact absurd h₁.2 (by simp)
        simp [hrec, hk0, hk1, hok₂]
  · have hrec₂ : isRecognizedArchive f = false := by
      cases h₁ : isRecognizedArchive f
      · rfl
      · exact absurd h₁ hrec
    simp [hrec₂]

/-- A batch whose work items all fail changes neither the database nor the
index. -/
theorem cacheMaps_state_of_all_fail (env : CacheEnv) (s : CacheState) (b : Bool)
    (hfail : ∀ f ∈ mapsToCache env s b, cacheMapOk env f = false) :
    (cacheMaps env s b).1.db = s.db ∧ (cacheMaps env s b).1.cachedMaps = s.cachedMaps := by
  simp only [cacheMaps]
  exact cacheMapsLoop_all_fail env _ _ hfail s 0

/-- A filter whose predicate holds exactly at an element occurring once
returns that singleton. -/
theorem filter_eq_single {p : String → Bool} {l : List String} {a : String}
    (hcount : l.count a = 1) (hp : p a = true)
    (honly : ∀ b ∈ l, p b = true → b = a) : l.filter p = [a] := by
  induction l with
  | nil => simp at hcount
  | cons c tl ih =>
    by_cases hc : c = a
    · subst hc
      rw [List.count_cons_self] at hcount
      have htl : tl.count c = 0 := by omega
      have hnot : c ∉ tl := List.count_eq_zero.mp htl
      have hnil : tl.filter p = [] := by
        rw [List.filter_eq_nil_iff]
        intro x hx hpx
        exact hnot ((honly x (List.mem_cons_of_mem c hx) hpx) ▸ hx)
      simp [List.filter_cons, hp, hnil]
    · have hcount₂ : tl.count a = 1 := by
        rwa [List.count_cons_of_ne (Ne.symm hc)] at hcount
      have hpc : p c = false := by
        cases h₁ : p c
        · rfl
        · exact absurd (honly c (List.mem_cons_self c tl) h₁) hc
      rw [List.filter_cons_of_neg (by simp [hpc])]
      exact ih hcount₂ (fun b hb => honly b (List.mem_cons_of_mem c hb))

/-- The number of parser invocations a batch performs: the loop calls
`parser.parseMap` exactly once per work item. -/
def extractionCount (env : CacheEnv) (st : CacheState) (recacheAll : Bool) : Nat :=
  (mapsToCache env st recacheAll).length

/-!  Concrete fixtures for witnesses and counterexamples. -/

/-- A well-formed parsed archive named after its file, with raw dimensions
4 × 3 source units and no optional metadata blocks. -/
def baseMap (name : String) : SpringMap :=
  { fileName := name, fileNameWithExt := name, scriptName := name,
    mapInfo := none, smd := none, smf := some ⟨4, 3⟩, minHeight := 0, maxHeight := 100 }

/-- A modern metadata block with every field absent. -/
def emptyMapInfo : MapInfo :=
  { description := none, maphardness := none, gravity := none, tidalStrength := none,
    maxMetal := none, extractorRadius := none, atmosphere := none, teams := none }

/-- A legacy metadata block with every field absent. -/
def emptySmd : Smd :=
  { description := none, mapHardness := none, gravity := none, tidalStrength := none,
    maxMetal := none, extractorRadius := none, minWind := none, maxWind := none,
    startPositions := none }

/-- Two recognized archives, both parsing and persisting cleanly. -/
def envTwoGood : CacheEnv :=
  { mapFileNames := ["alpha.sd7", "beta.sdz"],
    parseMap := fun f => some (baseMap f),
    imageWriteOk := fun _ => true,
    dbWriteOk := fun _ => true }

theorem envTwoGood_wellNamed : envTwoGood.WellNamed := by
  intro f m h
  cases h
  rfl

/-- A single recognized archive whose parse always fails. -/
def envOneBad : CacheEnv :=
  { mapFileNames := ["bad.sd7"],
    parseMap := fun _ => none,
    imageWriteOk := fun _ => true,
    dbWriteOk := fun _ => true }

/-- Three recognized archives; the second one is corrupt (its parse throws),
all writes succeed. -/
def envThree : CacheEnv :=
  { mapFileNames := ["a.sd7", "b.sd7", "c.sd7"],
    parseMap := fun f => if f = "b.sd7" then none else some (baseMap f),
    imageWriteOk := fun _ => true,
    dbWriteOk := fun _ => true }

theorem envThree_wellNamed : envThree.WellNamed := by
  intro f m h
  have h₂ : (if f = "b.sd7" then none else some (baseMap f)) = some m := h
  by_cases hf : f = "b.sd7"
  · rw [if_pos hf] at h₂
    exact absurd h₂ (by simp)
  · rw [if_neg hf] at h₂
    cases h₂
    rfl

/-- One already-cached archive plus one new archive, both parsing cleanly. -/
def envC2 : CacheEnv :=
  { mapFileNames := ["old.sd7", "new.sd7"],
    parseMap := fun f => some (baseMap f),
    imageWriteOk := fun _ => true,
    dbWriteOk := fun _ => true }

theorem envC2_wellNamed : envC2.WellNamed := by
  intro f m h
  cases h
  rfl

/-- The index state in which `old.sd7` is already cached. -/
def stOld : CacheState :=
  { db := [("old.sd7", default)], cachedMaps := [("old.sd7", default)], imagesWritten := [] }

/-- An empty scan directory: the work set is empty. -/
def envEmpty : CacheEnv :=
  { mapFileNames := [],
    parseMap := fun _ => none,
    imageWriteOk := fun _ => true,
    dbWriteOk := fun _ => true }

/-- Two recognized archives where the first fails to parse and the second
succeeds. -/
def envFailFirst : CacheEnv :=
  { mapFileNames := ["a.sd7", "b.sd7"],
    parseMap := fun f => if f = "a.sd7" then none else some (baseMap f),
    imageWriteOk := fun _ => true,
    dbWriteOk := fun _ => true }

theorem envFailFirst_wellNamed : envFailFirst.WellNamed := by
  intro f m h
  have h₂ : (if f = "a.sd7" then none else some (baseMap f)) = some m := h
  by_cases hf : f = "a.sd7"
  · rw [if_pos hf] at h₂
    exact absurd h₂ (by simp)
  · rw [if_neg hf] at h₂
    cases h₂
    rfl

/-- The archive used for the fallback-precedence scenario: modern metadata
omits `gravity` but supplies `maphardness`; legacy metadata supplies
`gravity`. -/
def mapC5 : SpringMap :=
  { baseMap "mix.sd7" with
    mapInfo := some { emptyMapInfo with maphardness := some 5 },
    smd := some { emptySmd with gravity := some 9 } }

/-- The spec's per-field resolution rule (§4.2): the modern source's value
is used whenever it is present, and the legacy source's value is used when
the modern field is absent.  Stated from the spec's words, to be checked
against the record `parseMapData` builds from the source. -/
def ResolvesField {α : Type} (modern legacy result : Option α) : Prop :=
  (∀ v, modern = some v → result = some v) ∧ (modern = none → result = legacy)

/-- `jsNullish` (the source's `??`) satisfies the spec's resolution rule. -/
theorem jsNullish_resolves {α : Type} (a b : Option α) :
    ResolvesField a b (jsNullish a b) := by
  constructor
  · intro v hv
    simp [jsNullish, hv]
  · intro h₀
    simp [jsNullish, h₀]

/-- C5: every structured/numeric metadata field of a parsed archive is
resolved field-by-field — the modern source (`mapInfo`) value is used when
present and the legacy source (`smd`) value when the modern field is absent
— for `mapHardness`, `gravity`, `tidalStrength`, `maxMetal`,
`extractorRadius`, `minWind`, `maxWind` and `startPositions` alike; in
particular an archive whose modern metadata omits `gravity` (legacy supplies
it) and supplies `mapHardness` yields a record with both fields populated,
one from each source. -/
theorem claim_C5 (m : SpringMap) (r : MapData) (h : parseMapData m = some r) :
    ResolvesField (m.mapInfo.bind MapInfo.maphardness) (m.smd.bind Smd.mapHardness)
      r.mapHardness ∧
    ResolvesField (m.mapInfo.bind MapInfo.gravity) (m.smd.bind Smd.gravity) r.gravity ∧
    ResolvesField (m.mapInfo.bind MapInfo.tidalStrength) (m.smd.bind Smd.tidalStrength)
      r.tidalStrength ∧
    ResolvesField (m.mapInfo.bind MapInfo.maxMetal) (m.smd.bind Smd.maxMetal) r.maxMetal ∧
    ResolvesField (m.mapInfo.bind MapInfo.extractorRadius) (m.smd.bind Smd.extractorRadius)
      r.extractorRadius ∧
    ResolvesField ((m.mapInfo.bind MapInfo.atmosphere).bind Atmosphere.minWind)
      (m.smd.bind Smd.minWind) r.minWind ∧
    ResolvesField ((m.mapInfo.bind MapInfo.atmosphere).bind Atmosphere.maxWind)
      (m.smd.bind Smd.maxWind) r.maxWind ∧
    ResolvesField ((m.mapInfo.bind MapInfo.teams).map (fun teams => teams.map
      MapInfoTeam.startPos)) (m.smd.bind Smd.startPositions) r.startPositions ∧
    (∀ mi sd hH gv, m.mapInfo = some mi → m.smd = some sd → mi.gravity = none →
      sd.gravity = some gv → mi.maphardness = some hH →
      r.gravity = some gv ∧ r.mapHardness = some hH) := by
  unfold parseMapData at h
  cases hs : m.smf with
  | none => rw [hs] at h; exact absurd h (by simp)
  | some smf =>
    rw [hs] at h
    cases h
    refine ⟨jsNullish_resolves _ _, jsNullish_resolves _ _, jsNullish_resolves _ _,
      jsNullish_resolves _ _, jsNullish_resolves _ _, jsNullish_resolves _ _,
      jsNullish_resolves _ _, jsNullish_resolves _ _, ?_⟩
    intro mi sd hH gv h₁ h₂ h₃ h₄ h₅
    constructor
    · simp [h₁, h₂, h₃, h₄, jsNullish]
    · simp [h₁, h₂, h₅, jsNullish]

/-- The record extracted from `mapC5`. -/
def recC5 : MapData :=
  match parseMapData mapC5 with
  | some r => r
  | none => default

theorem claim_C5_witness :
    parseMapData mapC5 = some recC5 ∧ recC5.gravity = some 9 ∧ recC5.mapHardness = some 5 :=
  ⟨rfl, (claim_C5 mapC5 recC5 rfl).2.2.2.2.2.2.2.2
    { emptyMapInfo with maphardness := some 5 } { emptySmd with gravity := some 9 }
    5 9 rfl rfl rfl rfl rfl⟩

/-- C8: the record's dimensions are always twice the raw `smf` source units,
never taken from either metadata source. -/
theorem claim_C8 (m : SpringMap) (s : Smf) (r : MapData)
    (h₁ : m.smf = some s) (h₂ : parseMapData m = some r) :
    r.width = s.mapWidthUnits * 2 ∧ r.height = s.mapHeightUnits * 2 := by
  unfold parseMapData at h₂
  rw [h₁] at h₂
  cases h₂
  exact ⟨rfl, rfl⟩

/-- The record extracted from an archive reporting 4 × 3 raw source units. -/
def recC8 : MapData :=
  match parseMapData (baseMap "dims.sd7") with
  | some r => r
  | none => default

theorem claim_C8_witness :
    parseMapData (baseMap "dims.sd7") = some recC8 ∧ recC8.width = 8 ∧ recC8.height = 6 := by
  have h := claim_C8 (baseMap "dims.sd7") ⟨4, 3⟩ recC8 rfl rfl
  refine ⟨rfl, ?_, ?_⟩
  · rw [h.1]; decide
  · rw [h.2]; decide

/-- C9 (amended): the modern description is used when it is present and
non-empty (JS `||` treats an empty string as falsy), and the legacy
description is used when the modern one is absent or empty; the field may be
absent in the result when neither source supplies a value. -/
theorem claim_C9_amended (m : SpringMap) (r : MapData) (h : parseMapData m = some r) :
    (∀ d, m.mapInfo.bind MapInfo.description = some d → d ≠ "" →
      r.description = some d) ∧
    ((m.mapInfo.bind MapInfo.description = none ∨
        m.mapInfo.bind MapInfo.description = some "") →
      r.description = m.smd.bind Smd.description) := by
  unfold parseMapData at h
  cases hs : m.smf with
  | none => rw [hs] at h; exact absurd h (by simp)
  | some smf =>
    rw [hs] at h
    cases h
    constructor
    · intro d hd hne
      simp [jsOrString, hd, hne]
    · rintro (hd | hd)
      · simp [jsOrString, hd]
      · simp [jsOrString, hd]

/-- The archive whose modern description is present but empty while the
legacy description is `"legacy"`. -/
def mapC9 : SpringMap :=
  { baseMap "desc.sd7" with
    mapInfo := some { emptyMapInfo with description := some "" },
    smd := some { emptySmd with description := some "legacy" } }

theorem claim_C9_counterexample :
    mapC9.mapInfo.bind MapInfo.description = some "" ∧
    (parseMapData mapC9).map MapData.description = some (some "legacy") ∧
    (some "legacy" : Option String) ≠ some "" := by
  refine ⟨by decide, by decide, by decide⟩

/-- The record extracted from `mapC9`. -/
def recC9 : MapData :=
  match parseMapData mapC9 with
  | some r => r
  | none => default

theorem claim_C9_amended_witness :
    parseMapData mapC9 = some recC9 ∧ recC9.description = some "legacy" := by
  have h := claim_C9_amended mapC9 recC9 rfl
  exact ⟨rfl, (h.2 (Or.inr (by decide))).trans (by decide)⟩

/-- C6 (counterexample): with an empty work set (K = 0) the batch emits no
event at all — in particular no `batchStarted` event heads the trace, so the
trace does not begin with a batch-start event even though the spec requires
one even when `totalItems == 0`. -/
theorem claim_C6_counterexample :
    mapsToCache envEmpty emptyState false = [] ∧
    (cacheMaps envEmpty emptyState false).2 = [] ∧
    ¬ ∃ k rest, (cacheMaps envEmpty emptyState false).2 =
      CacheEvent.batchStarted k :: rest := by
  refine ⟨by decide, by decide, ?_⟩
  rintro ⟨k, rest, h⟩
  have h₀ : (cacheMaps envEmpty emptyState false).2 = [] := by decide
  rw [h₀] at h
  exact List.cons_ne_nil _ _ h.symm

/-- C6 (amended): the batch emits no batch-level start event; instead every
per-item progress event carries the work-set size `K`, each `map-cached`
completion is immediately preceded by the progress event of its own item,
and a batch of zero items emits nothing. -/
theorem claim_C6_amended (env : CacheEnv) (st : CacheState) (b : Bool) :
    (∀ k, CacheEvent.batchStarted k ∉ (cacheMaps env st b).2) ∧
    (∀ t i f, CacheEvent.mapCacheProgress t i f ∈ (cacheMaps env st b).2 →
      t = (mapsToCache env st b).length) ∧
    (∀ l₁ r l₂, (cacheMaps env st b).2 = l₁ ++ CacheEvent.mapCached r :: l₂ →
      ∃ l₀ t i g, l₁ = l₀ ++ [CacheEvent.mapCacheProgress t i g] ∧
        extractedRecord env g = some r) ∧
    (mapsToCache env st b = [] → (cacheMaps env st b).2 = []) := by
  refine ⟨?_, ?_, ?_, ?_⟩
  · intro k
    simp only [cacheMaps]
    exact cacheMapsLoop_no_batchStarted env _ _ st 0 k
  · intro t i f h
    simp only [cacheMaps] at h
    exact cacheMapsLoop_progress_total env _ _ st 0 h
  · intro l₁ r l₂ h
    simp only [cacheMaps] at h
    exact cacheMapsLoop_mapCached_preceded env _ _ st 0 h
  · intro h
    simp only [cacheMaps, h]
    rfl

theorem claim_C6_amended_witness :
    CacheEvent.batchStarted 3 ∉ (cacheMaps envThree emptyState false).2 :=
  (claim_C6_amended envThree emptyState false).1 3

/-- C7 (counterexample): in a two-item batch whose first item fails, the
progress event of the second item carries `currentMapsCached = 1` even
though no item has fully finished yet (no `map-cached` event precedes it):
the counter counts attempted items, not fully finished ones. -/
theorem claim_C7_counterexample :
    (cacheMaps envFailFirst emptyState false).2.take 2 =
      [CacheEvent.mapCacheProgress 2 0 "a.sd7", CacheEvent.mapCacheProgress 2 1 "b.sd7"] ∧
    ((cacheMaps envFailFirst emptyState false).2.take 1).countP isMapCached = 0 := by
  refine ⟨by decide, by decide⟩

/-- C7 (amended): the progress event emitted before each item carries, as
`currentMapsCached`, the number of items attempted so far in the batch —
the item's 0-based position in the work set — counting failed items too. -/
theorem claim_C7_amended (env : CacheEnv) (st : CacheState) (b : Bool) :
    (cacheMaps env st b).2.filterMap progressInfo =
      (List.enumFrom 0 (mapsToCache env st b)).map
        (fun p => ((mapsToCache env st b).length, p.1, p.2)) := by
  simp only [cacheMaps]
  exact cacheMapsLoop_progress_trace env _ _ st 0

theorem claim_C7_amended_witness :
    (cacheMaps envFailFirst emptyState false).2.filterMap progressInfo =
      [(2, 0, "a.sd7"), (2, 1, "b.sd7")] :=
  (claim_C7_amended envFailFirst emptyState false).trans (by decide)

/-- C3: a failure at any step of an item leaves the database and the
in-memory index untouched for that item (partially written images may
remain) and emits nothing; the batch attempts every work item regardless
(one progress event per item), and in the concrete three-archive batch where
the second archive is corrupt, the final index holds the extracted records
of archives 1 and 3, no record (in index or store) for archive 2, and the
batch runs to completion. -/
theorem claim_C3 (env : CacheEnv) (st : CacheState) (f : String)
    (h : cacheMapOk env f = false) :
    ((cacheMap env st f).1.db = st.db ∧ (cacheMap env st f).1.cachedMaps = st.cachedMaps ∧
      (cacheMap env st f).2 = []) ∧
    (∀ s b, ((cacheMaps env s b).2.filterMap progressInfo).length =
      (mapsToCache env s b).length) ∧
    (lookupEntry "a.sd7" (cacheMaps envThree emptyState false).1.cachedMaps =
        extractedRecord envThree "a.sd7" ∧
      (extractedRecord envThree "a.sd7").isSome = true ∧
      lookupEntry "b.sd7" (cacheMaps envThree emptyState false).1.cachedMaps = none ∧
      lookupEntry "b.sd7" (cacheMaps envThree emptyState false).1.db = none ∧
      lookupEntry "c.sd7" (cacheMaps envThree emptyState false).1.cachedMaps =
        extractedRecord envThree "c.sd7" ∧
      (extractedRecord envThree "c.sd7").isSome = true) := by
  refine ⟨cacheMap_not_ok h st, ?_, ?_⟩
  · intro s b
    simp only [cacheMaps]
    rw [cacheMapsLoop_progress_trace env _ _ s 0]
    simp
  · refine ⟨by decide, by decide, by decide, by decide, by decide, by decide⟩

theorem claim_C3_witness :
    cacheMapOk envThree "b.sd7" = false ∧
    (cacheMap envThree emptyState "b.sd7").1.cachedMaps = emptyState.cachedMaps := by
  have h := claim_C3 envThree emptyState "b.sd7" (by decide)
  exact ⟨by decide, h.1.2.1⟩

/-- C4: a forced batch puts every recognized archive into the work set
regardless of the index, and a successful item whose key is already present
replaces the record in place — the key list is unchanged and the key now
maps to the newly extracted record. -/
theorem claim_C4 (env : CacheEnv) (st : CacheState) :
    mapsToCache env st true = env.mapFileNames.filter isRecognizedArchive ∧
    (∀ f r, extractedRecord env f = some r → cacheMapOk env f = true →
      r.fileNameWithExt ∈ st.cachedMaps.map Prod.fst →
      (cacheMap env st f).1.cachedMaps.map Prod.fst = st.cachedMaps.map Prod.fst ∧
      lookupEntry r.fileNameWithExt (cacheMap env st f).1.cachedMaps = some r) := by
  constructor
  · unfold mapsToCache
    simp
  · intro f r hr hok hmem
    obtain ⟨r₀, hr₀, -, hcm, -⟩ := cacheMap_ok hok st
    rw [hr] at hr₀
    injection hr₀ with h₁
    subst h₁
    rw [hcm]
    exact ⟨keys_replaceEntry_of_mem hmem r, lookup_replaceEntry_self _ _ _⟩

/-- The index state in which `alpha.sd7` is already cached (with a
placeholder record, to be replaced). -/
def stAlpha : CacheState :=
  { db := [("alpha.sd7", default)], cachedMaps := [("alpha.sd7", default)],
    imagesWritten := [] }

/-- The record extracted for `alpha.sd7` by `envTwoGood`. -/
def recAlpha : MapData :=
  match extractedRecord envTwoGood "alpha.sd7" with
  | some r => r
  | none => default

theorem claim_C4_witness :
    mapsToCache envTwoGood stAlpha true = ["alpha.sd7", "beta.sdz"] ∧
    (cacheMap envTwoGood stAlpha "alpha.sd7").1.cachedMaps.map Prod.fst =
      stAlpha.cachedMaps.map Prod.fst ∧
    lookupEntry "alpha.sd7" (cacheMap envTwoGood stAlpha "alpha.sd7").1.cachedMaps =
      some recAlpha := by
  have h := claim_C4 envTwoGood stAlpha
  have h₂ := h.2 "alpha.sd7" recAlpha rfl (by decide) (by decide)
  have hkey : recAlpha.fileNameWithExt = "alpha.sd7" := by decide
  refine ⟨(h.1).trans (by decide), h₂.1, ?_⟩
  rw [← hkey]
  exact h₂.2

/-- C1 (counterexample): with a single recognized archive whose parse
always fails, the first incremental batch leaves the index empty, so the
second run's work set again contains the archive — the parser is invoked
once more, not zero times, even though nothing on disk changed. -/
theorem claim_C1_counterexample :
    mapsToCache envOneBad (cacheMaps envOneBad emptyState false).1 false = ["bad.sd7"] ∧
    extractionCount envOneBad (cacheMaps envOneBad emptyState false).1 false = 1 ∧
    (1 : Nat) ≠ 0 :=
  ⟨by decide, by decide, by decide⟩

/-- C1 (amended): with no filesystem changes, a second incremental batch
leaves the index (hence the cached key set) exactly as the first left it,
its work set is exactly the items of the first run that failed, and when
every item of the first run succeeded the second run performs zero
extraction work. -/
theorem claim_C1_amended (env : CacheEnv) (st : CacheState) (hW : env.WellNamed) :
    (cacheMaps env (cacheMaps env st false).1 false).1.cachedMaps =
      (cacheMaps env st false).1.cachedMaps ∧
    mapsToCache env (cacheMaps env st false).1 false =
      (mapsToCache env st false).filter (fun f => !(cacheMapOk env f)) ∧
    ((∀ f ∈ mapsToCache env st false, cacheMapOk env f = true) →
      extractionCount env (cacheMaps env st false).1 false = 0) := by
  have h₂ := mapsToCache_after_batch hW st
  have hfail : ∀ f ∈ mapsToCache env (cacheMaps env st false).1 false,
      cacheMapOk env f = false := by
    intro f hf
    rw [h₂] at hf
    have h₃ := List.of_mem_filter hf
    simpa using h₃
  refine ⟨(cacheMaps_state_of_all_fail env _ false hfail).2, h₂, ?_⟩
  intro hall
  unfold extractionCount
  rw [h₂, List.length_eq_zero, List.filter_eq_nil_iff]
  intro a ha
  simp [hall a ha]

theorem claim_C1_amended_witness :
    (cacheMaps envTwoGood (cacheMaps envTwoGood emptyState false).1 false).1.cachedMaps =
      (cacheMaps envTwoGood emptyState false).1.cachedMaps ∧
    extractionCount envTwoGood (cacheMaps envTwoGood emptyState false).1 false = 0 := by
  have h := claim_C1_amended envTwoGood emptyState envTwoGood_wellNamed
  exact ⟨h.1, h.2.2 (by decide)⟩

/-- C2: with one new recognized archive added to a directory whose other
recognized files are all keyed in the index, the incremental work set is
exactly that one archive, and after the batch every other key's index entry
is unchanged by value. -/
theorem claim_C2 (env : CacheEnv) (st : CacheState) (f : String) (hW : env.WellNamed)
    (hcount : env.mapFileNames.count f = 1)
    (hrec : isRecognizedArchive f = true)
    (hnew : f ∉ st.cachedMaps.map Prod.fst)
    (hold : ∀ g ∈ env.mapFileNames, g ≠ f → isRecognizedArchive g = true →
      g ∈ st.cachedMaps.map Prod.fst) :
    mapsToCache env st false = [f] ∧
    (∀ k, k ≠ f → lookupEntry k (cacheMaps env st false).1.cachedMaps =
      lookupEntry k st.cachedMaps) := by
  have hwork : mapsToCache env st false = [f] := by
    unfold mapsToCache
    apply filter_eq_single hcount
    · simp [hrec, hnew]
    · intro g hg hpg
      simp only [Bool.false_or, Bool.and_eq_true, Bool.not_eq_true'] at hpg
      by_contra hne
      have hkey := hold g hg hne hpg.2
      have : (st.cachedMaps.map Prod.fst).contains g = true := by simpa using hkey
      rw [this] at hpg
      exact absurd hpg.1 (by simp)
  refine ⟨hwork, ?_⟩
  intro k hk
  simp only [cacheMaps]
  rw [hwork]
  exact cacheMapsLoop_lookup_not_mem hW _ [f] st 0 k (by simp [hk])

theorem claim_C2_witness :
    mapsToCache envC2 stOld false = ["new.sd7"] ∧
    lookupEntry "old.sd7" (cacheMaps envC2 stOld false).1.cachedMaps =
      lookupEntry "old.sd7" stOld.cachedMaps := by
  have h := claim_C2 envC2 stOld "new.sd7" envC2_wellNamed (by decide) (by decide)
    (by decide) (by decide)
  exact ⟨h.1, h.2 "old.sd7" (by decide)⟩

/-- C10: an archive whose processing fails never enters the index, so after
any batch it is still absent from the index keys and therefore belongs to
the work set of every subsequent incremental batch — its extraction is
re-attempted. -/
theorem claim_C10 (env : CacheEnv) (st : CacheState) (b : Bool) (f : String)
    (hW : env.WellNamed) (hrec : isRecognizedArchive f = true)
    (hmem : f ∈ env.mapFileNames) (hfail : cacheMapOk env f = false)
    (hnot : f ∉ st.cachedMaps.map Prod.fst) :
    f ∉ (cacheMaps env st b).1.cachedMaps.map Prod.fst ∧
    f ∈ mapsToCache env (cacheMaps env st b).1 false := by
  have h₁ : f ∉ (cacheMaps env st b).1.cachedMaps.map Prod.fst := by
    intro h
    rcases (cacheMaps_mem_keys hW st b f).mp h with h₂ | h₂
    · exact hnot h₂
    · rw [hfail] at h₂
      exact absurd h₂.2 (by simp)
  exact ⟨h₁, mem_mapsToCache_false.mpr ⟨hmem, h₁, hrec⟩⟩

theorem claim_C10_witness :
    "a.sd7" ∉ (cacheMaps envFailFirst emptyState false).1.cachedMaps.map Prod.fst ∧
    "a.sd7" ∈ mapsToCache envFailFirst (cacheMaps envFailFirst emptyState false).1 false :=
  claim_C10 envFailFirst emptyState false "a.sd7" envFailFirst_wellNamed (by decide)
    (by decide) (by decide) (by decide)
